import Mathlib

/-!
# Wiki-Forge: verification of the core processing routines

Shallow embedding of `backend/wiki_processor/processor.py` and
`backend/main.py`:

* `clean_text` embeds `WikiDatasetProcessor.clean_text` (four regex
  substitution passes followed by `strip`),
* `fetch_article` embeds `WikiDatasetProcessor.fetch_article` with the
  external wiki client modelled as an oracle `String → Except String WikiPage`
  (an `Except.error` models the client raising an exception),
* `process_articles` embeds `WikiDatasetProcessor.process_articles`, with
  filesystem effects reified as a list of `FsAction`s,
* `get_article_statistics` embeds `WikiDatasetProcessor.get_article_statistics`,
* `process_wiki_articles` embeds the `POST /api/process-wiki` handler of
  `backend/main.py` including its `try/except Exception` wrapper.

Character classes model the ASCII behaviour of Python's `\w`, `\s`, `\d`.
-/

/-- Python `\s` (ASCII range): space, tab, newline, carriage return,
vertical tab, form feed. -/
def isSpacePy (c : Char) : Bool :=
  c = ' ' || c = '\t' || c = '\n' || c = '\r' || c = '\x0b' || c = '\x0c'

/-- Python `\w` (ASCII range): letters, digits, underscore. -/
def isWordPy (c : Char) : Bool :=
  c.isAlphanum || c = '_'

/-- The punctuation kept by the fourth substitution pass: `. , ! ? -`. -/
def isPunctKeep (c : Char) : Bool :=
  c = '.' || c = ',' || c = '!' || c = '?' || c = '-'

/-- The character class `[^\w\s.,!?-]` is *removed*; `keepChar` is its
complement, the class of characters the fourth pass keeps. -/
def keepChar (c : Char) : Bool :=
  isWordPy c || isSpacePy c || isPunctKeep c

/-- One match attempt of `\[\d+\]` just after an opening `[`: greedily take
digits, then require `]`; returns the remainder after the match. -/
def splitCitation (cs : List Char) : Option (List Char) :=
  if cs.takeWhile Char.isDigit = [] then none
  else
    match cs.dropWhile Char.isDigit with
    | ']' :: r => some r
    | _ => none

/-- Fuel-indexed left-to-right scan of `re.sub(r'\[\d+\]', '', text)`:
at each position, if a citation marker starts here it is dropped and the
scan resumes after it, otherwise the character is kept.  Each step consumes
at least one input character, so fuel `s.length` never runs out. -/
def subCitGo : Nat → List Char → List Char
  | 0, s => s
  | _ + 1, [] => []
  | f + 1, c :: cs =>
    if c = '[' then
      match splitCitation cs with
      | some r => subCitGo f r
      | none => c :: subCitGo f cs
    else c :: subCitGo f cs

/-- Pass 1: `re.sub(r'\[\d+\]', '', text)`. -/
def subCitations (s : List Char) : List Char :=
  subCitGo s.length s

/-- Locate the closing `}` of a non-greedy `\{.*?\}` match: the first `}`
after the `{`, failing if a newline intervenes (Python `.` does not match
`\n`). Returns the remainder after the `}`. -/
def findClose : List Char → Option (List Char)
  | [] => none
  | c :: cs =>
    if c = '}' then some cs
    else if c = '\n' then none
    else findClose cs

/-- Fuel-indexed left-to-right scan of `re.sub(r'\{.*?\}', '', text)`. -/
def subBrGo : Nat → List Char → List Char
  | 0, s => s
  | _ + 1, [] => []
  | f + 1, c :: cs =>
    if c = '\x7b' then
      match findClose cs with
      | some r => subBrGo f r
      | none => c :: subBrGo f cs
    else c :: subBrGo f cs

/-- Pass 2: `re.sub(r'\{.*?\}', '', text)`. -/
def subBraces (s : List Char) : List Char :=
  subBrGo s.length s

/-- Scanner for `re.sub(r'\s+', ' ', text)`: `prev` records whether the
previous input character was whitespace (i.e. we are inside a run that has
already emitted its single space). -/
def collapseWsAux : Bool → List Char → List Char
  | _, [] => []
  | prev, c :: cs =>
    if isSpacePy c then
      if prev then collapseWsAux true cs else ' ' :: collapseWsAux true cs
    else c :: collapseWsAux false cs

/-- Pass 3: `re.sub(r'\s+', ' ', text)`, replacing each maximal whitespace
run by a single space. -/
def collapseWs (s : List Char) : List Char :=
  collapseWsAux false s

/-- Pass 4: `re.sub(r'[^\w\s.,!?-]', '', text)`. -/
def filterSpecial (s : List Char) : List Char :=
  s.filter keepChar

/-- Remove a trailing whitespace run (second half of Python `str.strip`). -/
def dropTrailingWs : List Char → List Char
  | [] => []
  | c :: cs =>
    match dropTrailingWs cs with
    | [] => if isSpacePy c then [] else [c]
    | d :: ds => c :: d :: ds

/-- Python `str.strip()`: remove leading and trailing whitespace. -/
def stripPy (s : List Char) : List Char :=
  dropTrailingWs (s.dropWhile isSpacePy)

/-- The four substitution passes of `clean_text` followed by `strip`,
applied in source order. -/
def cleanList (s : List Char) : List Char :=
  stripPy (filterSpecial (collapseWs (subBraces (subCitations s))))

/-- `WikiDatasetProcessor.clean_text`.  The argument is an `Option String`
so that Python's `None` is representable; `if not text` is true exactly for
`None` and the empty string. -/
def clean_text : Option String → String
  | none => ""
  | some t => if t = "" then "" else String.mk (cleanList t.data)

/-- The first character, when present, is not whitespace. -/
def startsNonspace : List Char → Bool
  | [] => true
  | c :: _ => !isSpacePy c

/-- The last character, when present, is not whitespace. -/
def endsNonspace : List Char → Bool
  | [] => true
  | [c] => !isSpacePy c
  | _ :: c :: cs => endsNonspace (c :: cs)

/-- No two adjacent characters are both whitespace. -/
def noAdjSpace : List Char → Bool
  | c1 :: c2 :: cs => (!(isSpacePy c1 && isSpacePy c2)) && noAdjSpace (c2 :: cs)
  | _ => true

/-! ## Fetching, dataset building, statistics, and the HTTP handler -/

/-- The page object returned by the external wiki client (`wikipediaapi`):
the fields `fetch_article` reads.  `pageExists` models `page.exists()`. -/
structure WikiPage where
  title : String
  text : String
  summary : String
  fullurl : String
  categories : List String
  references : Nat
  pageExists : Bool
deriving DecidableEq

/-- The dict built by `fetch_article` (before cleaning is added). -/
structure ArticleData where
  title : String
  text : String
  summary : String
  url : String
  categories : List String
  references : Nat
  processed_date : String
deriving DecidableEq

/-- A row of the DataFrame built by `process_articles`: the fetched dict
plus the two derived `clean_*` columns. -/
structure ProcessedArticle where
  title : String
  text : String
  summary : String
  url : String
  categories : List String
  references : Nat
  processed_date : String
  clean_text : String
  clean_summary : String
deriving DecidableEq

/-- `WikiDatasetProcessor.fetch_article`.  The external client is the
oracle `env`: `Except.error e` means `self.wiki.page(title)` (or an access
on the page) raised exception `e`; the `try/except Exception` in the source
turns that into `None`.  An existing page yields the dict of line 52-60,
with `processed_date` the current time `now`. -/
def fetch_article (env : String → Except String WikiPage) (now : String)
    (title : String) : Option ArticleData :=
  match env title with
  | Except.error _ => none
  | Except.ok page =>
    if !page.pageExists then none
    else some ⟨page.title, page.text, page.summary, page.fullurl,
      page.categories, page.references, now⟩

/-- Lines 109-110: add the `clean_text`/`clean_summary` columns to a
fetched dict. -/
def enrich (a : ArticleData) : ProcessedArticle :=
  ⟨a.title, a.text, a.summary, a.url, a.categories, a.references,
    a.processed_date, clean_text (some a.text), clean_text (some a.summary)⟩

/-- The accumulation loop of `process_articles` (lines 103-111): fetch each
title in order, keep the enriched record when the fetch produced one, skip
otherwise. -/
def processLoop (env : String → Except String WikiPage) (now : String) :
    List String → List ProcessedArticle
  | [] => []
  | t :: ts =>
    match fetch_article env now t with
    | some a => enrich a :: processLoop env now ts
    | none => processLoop env now ts

/-- Filesystem effects of `process_articles`, reified. -/
inductive FsAction where
  | mkdirParent : String → FsAction
  | writeCsv : String → FsAction
  | writeJson : String → FsAction
deriving DecidableEq

/-- `WikiDatasetProcessor.process_articles`: returns the DataFrame (as a
list of rows) together with the filesystem actions performed.  When no
record was produced the empty table is returned and nothing is written
(lines 113-115); otherwise the parent directory is created and the `.csv`
and `.json` forms are written at `output_path` (lines 120-126). -/
def process_articles (env : String → Except String WikiPage) (now : String)
    (titles : List String) (output_path : String) :
    List ProcessedArticle × List FsAction :=
  let processed_data := processLoop env now titles
  if processed_data = [] then (processed_data, [])
  else (processed_data,
    [FsAction.mkdirParent output_path, FsAction.writeCsv output_path,
      FsAction.writeJson output_path])

/-- The dict returned by `get_article_statistics`. -/
structure Stats where
  total_articles : Nat
  avg_text_length : Nat
  avg_summary_length : Nat
  total_references : Nat
  unique_categories : Nat
  processing_date_range : Option String × Option String
deriving DecidableEq

/-- `WikiDatasetProcessor.get_article_statistics`.  The two averages embed
`int(mean(...))`: the values are natural numbers, so `int()`-truncation of
their (non-negative) mean is exactly floor, i.e. natural division of the
sum by the row count.  `unique_categories` is the size of
`set(flattened categories)`; the date range takes the lexicographic
min/max of the `processed_date` column, as pandas does on strings. -/
def get_article_statistics (df : List ProcessedArticle) : Stats :=
  if df = [] then ⟨0, 0, 0, 0, 0, (none, none)⟩
  else
    ⟨df.length,
      (df.map (fun r => r.clean_text.length)).sum / df.length,
      (df.map (fun r => r.clean_summary.length)).sum / df.length,
      (df.map (fun r => r.references)).sum,
      (df.flatMap (fun r => r.categories)).dedup.length,
      ((df.map (fun r => r.processed_date)).min?,
        (df.map (fun r => r.processed_date)).max?)⟩

/-- An HTTP error response (`fastapi.HTTPException`). -/
structure HTTPError where
  status_code : Nat
  detail : String
deriving DecidableEq

/-- The body of the `try:` block of `process_wiki_articles`
(`backend/main.py` lines 52-66): empty `titles` raises a 400, otherwise
the articles are processed and the statistics returned. -/
def handlerTry (env : String → Except String WikiPage) (now : String)
    (output_dir : String) (titles : List String) : Except HTTPError Stats :=
  if titles = [] then Except.error ⟨400, "No article titles provided"⟩
  else Except.ok (get_article_statistics
    (process_articles env now titles (output_dir ++ "/processed_articles")).1)

/-- The `POST /api/process-wiki` handler, including the
`except Exception as e` wrapper (lines 68-73): *any* exception raised in
the `try:` block — the 400 `HTTPException` included, since `HTTPException`
subclasses `Exception` — is caught and re-raised as a 500 whose detail
wraps `str(e)` (for an `HTTPException`, `"{status_code}: {detail}"`). -/
def process_wiki_articles (env : String → Except String WikiPage)
    (now : String) (output_dir : String) (titles : List String) :
    Except HTTPError Stats :=
  match handlerTry env now output_dir titles with
  | Except.error e =>
    Except.error ⟨500,
      "Error processing articles: " ++ toString e.status_code ++ ": " ++ e.detail⟩
  | Except.ok v => Except.ok v

/-- A client for which every lookup raises (used by concrete witnesses). -/
def envErr : String → Except String WikiPage :=
  fun _ => Except.error "ConnectionError"

/-- A client raising on title `"X"` and reporting every other page as
nonexistent (used by concrete witnesses). -/
def envDemo : String → Except String WikiPage :=
  fun t =>
    if t = "X" then Except.error "ReadTimeout"
    else Except.ok ⟨t, "", "", "", [], 0, false⟩

/-- First synthetic record of the aggregate-correctness test: clean text
length 10, 3 references, categories `A`, `B`. -/
def sampleRec1 : ProcessedArticle :=
  ⟨"T1", "raw1", "sum1", "http://e/1", ["A", "B"], 3, "2024-01-01T00:00:00",
    "aaaaaaaaaa", "aaaa"⟩

/-- Second synthetic record: clean text length 20, 5 references,
categories `B`, `C`. -/
def sampleRec2 : ProcessedArticle :=
  ⟨"T2", "raw2", "sum2", "http://e/2", ["B", "C"], 5, "2024-01-02T00:00:00",
    "bbbbbbbbbbbbbbbbbbbb", "bb"⟩

/-! ## Helper lemmas about the normalization passes -/

theorem subCitGo_id (f : Nat) (s : List Char) (hf : s.length ≤ f)
    (h : ∀ c ∈ s, c ≠ '[') : subCitGo f s = s := by
  induction f generalizing s with
  | zero =>
    have : s = [] := List.length_eq_zero.mp (Nat.le_zero.mp hf)
    subst this; rfl
  | succ f ih =>
    cases s with
    | nil => rfl
    | cons c cs =>
      have hc : c ≠ '[' := h c (List.mem_cons_self c cs)
      simp only [subCitGo, if_neg hc]
      exact congrArg (c :: ·) (ih cs (Nat.le_of_succ_le_succ hf)
        (fun d hd => h d (List.mem_cons_of_mem c hd)))

theorem subCitations_id (s : List Char) (h : ∀ c ∈ s, c ≠ '[') :
    subCitations s = s :=
  subCitGo_id s.length s le_rfl h

theorem subBrGo_id (f : Nat) (s : List Char) (hf : s.length ≤ f)
    (h : ∀ c ∈ s, c ≠ '\x7b') : subBrGo f s = s := by
  induction f generalizing s with
  | zero =>
    have : s = [] := List.length_eq_zero.mp (Nat.le_zero.mp hf)
    subst this; rfl
  | succ f ih =>
    cases s with
    | nil => rfl
    | cons c cs =>
      have hc : c ≠ '\x7b' := h c (List.mem_cons_self c cs)
      simp only [subBrGo, if_neg hc]
      exact congrArg (c :: ·) (ih cs (Nat.le_of_succ_le_succ hf)
        (fun d hd => h d (List.mem_cons_of_mem c hd)))

theorem subBraces_id (s : List Char) (h : ∀ c ∈ s, c ≠ '\x7b') :
    subBraces s = s :=
  subBrGo_id s.length s le_rfl h

theorem mem_collapseWsAux (b : Bool) (s : List Char) (c : Char)
    (hc : c ∈ collapseWsAux b s) :
    (c ∈ s ∧ isSpacePy c = false) ∨ c = ' ' := by
  induction s generalizing b with
  | nil => simp [collapseWsAux] at hc
  | cons d ds ih =>
    by_cases hd : isSpacePy d
    · by_cases hb : b
      · subst hb
        simp only [collapseWsAux, hd, if_pos, if_true] at hc
        rcases ih true hc with ⟨hm, hs⟩ | he
        · exact Or.inl ⟨List.mem_cons_of_mem d hm, hs⟩
        · exact Or.inr he
      · have hb' : b = false := by simpa using hb
        subst hb'
        simp only [collapseWsAux, hd, if_pos, if_false] at hc
        rcases List.mem_cons.mp hc with he | hc'
        · exact Or.inr he
        · rcases ih true hc' with ⟨hm, hs⟩ | he
          · exact Or.inl ⟨List.mem_cons_of_mem d hm, hs⟩
          · exact Or.inr he
    · simp only [collapseWsAux, hd, if_neg, if_false] at hc
      rcases List.mem_cons.mp hc with he | hc'
      · subst he
        exact Or.inl ⟨List.mem_cons_self c ds, by simpa using hd⟩
      · rcases ih false hc' with ⟨hm, hs⟩ | he
        · exact Or.inl ⟨List.mem_cons_of_mem d hm, hs⟩
        · exact Or.inr he

theorem noAdjSpace_cons (c : Char) (l : List Char) :
    noAdjSpace (c :: l) = ((!isSpacePy c || startsNonspace l) && noAdjSpace l) := by
  cases l with
  | nil => simp [noAdjSpace, startsNonspace]
  | cons d ds => simp [noAdjSpace, startsNonspace, Bool.not_and]

theorem startsNonspace_collapseWsAux_true (s : List Char) :
    startsNonspace (collapseWsAux true s) = true := by
  induction s with
  | nil => rfl
  | cons c cs ih =>
    by_cases hc : isSpacePy c
    · simpa [collapseWsAux, hc] using ih
    · simp [collapseWsAux, hc, startsNonspace]

theorem noAdjSpace_collapseWsAux (s : List Char) (b : Bool) :
    noAdjSpace (collapseWsAux b s) = true := by
  induction s generalizing b with
  | nil => rfl
  | cons c cs ih =>
    by_cases hc : isSpacePy c
    · cases b with
      | true => simpa [collapseWsAux, hc] using ih true
      | false =>
        simp only [collapseWsAux, hc, if_true]
        simp only [Bool.false_eq_true, if_false]
        rw [noAdjSpace_cons]
        simp [startsNonspace_collapseWsAux_true, ih true]
    · simp only [collapseWsAux, hc]
      simp only [Bool.false_eq_true, if_false]
      rw [noAdjSpace_cons]
      simp [hc, ih false]

theorem collapseWsAux_id (s : List Char)
    (hsp : ∀ c ∈ s, isSpacePy c = true → c = ' ')
    (hadj : noAdjSpace s = true) :
    collapseWsAux false s = s ∧
      (startsNonspace s = true → collapseWsAux true s = s) := by
  induction s with
  | nil => exact ⟨rfl, fun _ => rfl⟩
  | cons c cs ih =>
    rw [noAdjSpace_cons, Bool.and_eq_true] at hadj
    obtain ⟨h1, h2⟩ := hadj
    have ihcs := ih (fun d hd => hsp d (List.mem_cons_of_mem c hd)) h2
    constructor
    · by_cases hc : isSpacePy c
      · have hcsp : c = ' ' := hsp c (List.mem_cons_self c cs) hc
        have hst : startsNonspace cs = true := by
          rw [Bool.or_eq_true] at h1
          rcases h1 with h | h
          · rw [hc] at h; simp at h
          · exact h
        simp only [collapseWsAux, hc, if_true]
        simp only [Bool.false_eq_true, if_false]
        rw [ihcs.2 hst, hcsp]
      · simp only [collapseWsAux, hc]
        simp only [Bool.false_eq_true, if_false]
        rw [ihcs.1]
    · intro hst
      have hc : isSpacePy c = false := by
        simpa [startsNonspace] using hst
      simp only [collapseWsAux, hc]
      simp only [Bool.false_eq_true, if_false]
      rw [ihcs.1]

theorem startsNonspace_dropWhile (l : List Char) :
    startsNonspace (l.dropWhile isSpacePy) = true := by
  induction l with
  | nil => rfl
  | cons c cs ih =>
    by_cases hc : isSpacePy c
    · simpa [List.dropWhile_cons, hc] using ih
    · simp [List.dropWhile_cons, hc, startsNonspace]

theorem dropWhile_ws_id (l : List Char) (h : startsNonspace l = true) :
    l.dropWhile isSpacePy = l := by
  cases l with
  | nil => rfl
  | cons c cs =>
    have hc : isSpacePy c = false := by simpa [startsNonspace] using h
    simp [List.dropWhile_cons, hc]

theorem dropWhile_ws_suffix (l : List Char) :
    ∃ t, t ++ l.dropWhile isSpacePy = l := by
  induction l with
  | nil => exact ⟨[], rfl⟩
  | cons c cs ih =>
    by_cases hc : isSpacePy c
    · obtain ⟨t, ht⟩ := ih
      exact ⟨c :: t, by simp [List.dropWhile_cons, hc, ht]⟩
    · exact ⟨[], by simp [List.dropWhile_cons, hc]⟩

theorem noAdjSpace_of_append_left (t x : List Char)
    (h : noAdjSpace (t ++ x) = true) : noAdjSpace x = true := by
  induction t with
  | nil => exact h
  | cons a t ih =>
    apply ih
    rw [List.cons_append, noAdjSpace_cons, Bool.and_eq_true] at h
    exact h.2

theorem noAdjSpace_of_append_right (x t : List Char)
    (h : noAdjSpace (x ++ t) = true) : noAdjSpace x = true := by
  induction x with
  | nil => rfl
  | cons a x ih =>
    rw [List.cons_append, noAdjSpace_cons, Bool.and_eq_true] at h
    rw [noAdjSpace_cons, Bool.and_eq_true]
    refine ⟨?_, ih h.2⟩
    rcases x with _ | ⟨b, xs⟩
    · simp [startsNonspace]
    · simpa [startsNonspace] using h.1

theorem dropTrailingWs_prefix (l : List Char) :
    ∃ t, dropTrailingWs l ++ t = l := by
  induction l with
  | nil => exact ⟨[], rfl⟩
  | cons c cs ih =>
    obtain ⟨t, ht⟩ := ih
    cases h : dropTrailingWs cs with
    | nil =>
      by_cases hc : isSpacePy c
      · exact ⟨c :: cs, by simp [dropTrailingWs, h, hc]⟩
      · refine ⟨cs, ?_⟩
        simp only [dropTrailingWs, h, hc]
        simp [Bool.false_eq_true, if_false]
    | cons d ds =>
      refine ⟨t, ?_⟩
      rw [h] at ht
      simp [dropTrailingWs, h, ht]

theorem mem_dropTrailingWs (l : List Char) (c : Char)
    (hc : c ∈ dropTrailingWs l) : c ∈ l := by
  obtain ⟨t, ht⟩ := dropTrailingWs_prefix l
  rw [← ht]
  exact List.mem_append_left t hc

theorem endsNonspace_dropTrailingWs (l : List Char) :
    endsNonspace (dropTrailingWs l) = true := by
  induction l with
  | nil => rfl
  | cons c cs ih =>
    cases h : dropTrailingWs cs with
    | nil =>
      by_cases hc : isSpacePy c
      · simp [dropTrailingWs, h, hc, endsNonspace]
      · simp only [dropTrailingWs, h, hc]
        simp only [Bool.false_eq_true, if_false]
        simpa [endsNonspace] using hc
    | cons d ds =>
      rw [h] at ih
      simpa [dropTrailingWs, h, endsNonspace] using ih

theorem dropTrailingWs_id (l : List Char) (h : endsNonspace l = true) :
    dropTrailingWs l = l := by
  induction l with
  | nil => rfl
  | cons c cs ih =>
    cases cs with
    | nil =>
      have hc : isSpacePy c = false := by simpa [endsNonspace] using h
      simp only [dropTrailingWs, hc]
      simp [Bool.false_eq_true, if_false]
    | cons e es =>
      have h' : endsNonspace (e :: es) = true := by
        simpa [endsNonspace] using h
      have hd : dropTrailingWs (e :: es) = e :: es := ih h'
      calc dropTrailingWs (c :: e :: es)
          = (match dropTrailingWs (e :: es) with
             | [] => if isSpacePy c = true then [] else [c]
             | d :: ds => c :: d :: ds) := rfl
        _ = c :: e :: es := by rw [hd]

theorem startsNonspace_dropTrailingWs (l : List Char)
    (h : startsNonspace l = true) :
    startsNonspace (dropTrailingWs l) = true := by
  cases l with
  | nil => rfl
  | cons c cs =>
    have hc : isSpacePy c = false := by simpa [startsNonspace] using h
    cases hd : dropTrailingWs cs with
    | nil =>
      simp only [dropTrailingWs, hd, hc]
      simp [Bool.false_eq_true, if_false, startsNonspace, hc]
    | cons d ds =>
      simp [dropTrailingWs, hd, startsNonspace, hc]

theorem noAdjSpace_dropTrailingWs (l : List Char) (h : noAdjSpace l = true) :
    noAdjSpace (dropTrailingWs l) = true := by
  obtain ⟨t, ht⟩ := dropTrailingWs_prefix l
  rw [← ht] at h
  exact noAdjSpace_of_append_right _ t h

theorem startsNonspace_stripPy (l : List Char) :
    startsNonspace (stripPy l) = true :=
  startsNonspace_dropTrailingWs _ (startsNonspace_dropWhile l)

theorem endsNonspace_stripPy (l : List Char) :
    endsNonspace (stripPy l) = true :=
  endsNonspace_dropTrailingWs _

theorem mem_stripPy (l : List Char) (c : Char) (hc : c ∈ stripPy l) :
    c ∈ l := by
  have h1 := mem_dropTrailingWs _ c hc
  obtain ⟨t, ht⟩ := dropWhile_ws_suffix l
  rw [← ht]
  exact List.mem_append_right t h1

theorem noAdjSpace_stripPy (l : List Char) (h : noAdjSpace l = true) :
    noAdjSpace (stripPy l) = true := by
  apply noAdjSpace_dropTrailingWs
  obtain ⟨t, ht⟩ := dropWhile_ws_suffix l
  rw [← ht] at h
  exact noAdjSpace_of_append_left t _ h

theorem stripPy_id (l : List Char) (h1 : startsNonspace l = true)
    (h2 : endsNonspace l = true) : stripPy l = l := by
  rw [stripPy, dropWhile_ws_id l h1, dropTrailingWs_id l h2]

theorem keepChar_no_lbracket (c : Char) (h : keepChar c = true) : c ≠ '[' := by
  intro he
  subst he
  exact absurd h (by decide)

theorem keepChar_no_lbrace (c : Char) (h : keepChar c = true) : c ≠ '\x7b' := by
  intro he
  subst he
  exact absurd h (by decide)

theorem mem_cleanList (s : List Char) (c : Char) (hc : c ∈ cleanList s) :
    keepChar c = true ∧ (isSpacePy c = true → c = ' ') := by
  rw [cleanList] at hc
  have h1 : c ∈ filterSpecial (collapseWs (subBraces (subCitations s))) :=
    mem_stripPy _ c hc
  rw [filterSpecial, List.mem_filter] at h1
  refine ⟨h1.2, ?_⟩
  intro hsp
  rcases mem_collapseWsAux false _ c (by simpa [collapseWs] using h1.1) with
    ⟨_, hf⟩ | he
  · rw [hsp] at hf; cases hf
  · exact he

theorem cleanList_fixed_of_keep (s : List Char)
    (hkeep : ∀ c ∈ s, keepChar c = true) :
    cleanList (cleanList s) = cleanList s := by
  have hcit : subCitations s = s :=
    subCitations_id s (fun c hc => keepChar_no_lbracket c (hkeep c hc))
  have hbr : subBraces s = s :=
    subBraces_id s (fun c hc => keepChar_no_lbrace c (hkeep c hc))
  have hX : ∀ c ∈ collapseWs s, keepChar c = true := by
    intro c hc
    rcases mem_collapseWsAux false s c (by simpa [collapseWs] using hc) with
      ⟨hm, _⟩ | he
    · exact hkeep c hm
    · rw [he]; decide
  have hfil : filterSpecial (collapseWs s) = collapseWs s := by
    rw [filterSpecial]
    exact List.filter_eq_self.mpr hX
  have hz : cleanList s = stripPy (collapseWs s) := by
    rw [cleanList, hcit, hbr, hfil]
  have hzkeep : ∀ c ∈ stripPy (collapseWs s), keepChar c = true :=
    fun c hc => hX c (mem_stripPy _ c hc)
  have hzsp : ∀ c ∈ stripPy (collapseWs s), isSpacePy c = true → c = ' ' := by
    intro c hc hsp
    rcases mem_collapseWsAux false s c
        (by simpa [collapseWs] using mem_stripPy _ c hc) with ⟨_, hf⟩ | he
    · rw [hsp] at hf; cases hf
    · exact he
  have hzadj : noAdjSpace (stripPy (collapseWs s)) = true :=
    noAdjSpace_stripPy _
      (by simpa [collapseWs] using noAdjSpace_collapseWsAux s false)
  have o1 : subCitations (stripPy (collapseWs s)) = stripPy (collapseWs s) :=
    subCitations_id _ (fun c hc => keepChar_no_lbracket c (hzkeep c hc))
  have o2 : subBraces (stripPy (collapseWs s)) = stripPy (collapseWs s) :=
    subBraces_id _ (fun c hc => keepChar_no_lbrace c (hzkeep c hc))
  have o3 : collapseWs (stripPy (collapseWs s)) = stripPy (collapseWs s) := by
    rw [collapseWs]
    exact (collapseWsAux_id _ hzsp hzadj).1
  have o4 : filterSpecial (stripPy (collapseWs s)) = stripPy (collapseWs s) := by
    rw [filterSpecial]
    exact List.filter_eq_self.mpr hzkeep
  have o5 : stripPy (stripPy (collapseWs s)) = stripPy (collapseWs s) :=
    stripPy_id _ (startsNonspace_stripPy _) (endsNonspace_stripPy _)
  rw [hz, cleanList, o1, o2, o3, o4, o5]

/-! ## Helper lemmas about the dataset builder -/

theorem process_articles_fst (env : String → Except String WikiPage)
    (now : String) (titles : List String) (path : String) :
    (process_articles env now titles path).1 = processLoop env now titles := by
  by_cases h : processLoop env now titles = [] <;> simp [process_articles, h]

theorem processLoop_eq_filterMap (env : String → Except String WikiPage)
    (now : String) (titles : List String) :
    processLoop env now titles =
      titles.filterMap (fun t => (fetch_article env now t).map enrich) := by
  induction titles with
  | nil => rfl
  | cons t ts ih =>
    cases h : fetch_article env now t with
    | none => simp [processLoop, h, List.filterMap_cons, ih]
    | some a => simp [processLoop, h, List.filterMap_cons, ih]

theorem processLoop_length (env : String → Except String WikiPage)
    (now : String) (titles : List String) :
    (processLoop env now titles).length =
      titles.countP (fun t => (fetch_article env now t).isSome) := by
  induction titles with
  | nil => rfl
  | cons t ts ih =>
    cases h : fetch_article env now t with
    | none => simp [processLoop, h, List.countP_cons, ih]
    | some a => simp [processLoop, h, List.countP_cons, ih]

/-! ## The claims -/

/-- C1: with an empty `titles` list the handler body does raise the 400
`InvalidRequest` condition before any fetch work, but the surrounding
`except Exception` clause catches that very exception and re-raises it as
a 500 server error — the caller sees a 500, not the claimed 400. -/
theorem empty_titles_become_500 (env : String → Except String WikiPage)
    (now : String) (outdir : String) :
    handlerTry env now outdir [] =
        Except.error ⟨400, "No article titles provided"⟩
    ∧ process_wiki_articles env now outdir [] =
        Except.error
          ⟨500, "Error processing articles: 400: No article titles provided"⟩ :=
  ⟨rfl, rfl⟩

/-- C2 counterexample: `clean` is not idempotent.  On `"a @ b"` the first
pass collapses whitespace before the `@` is removed, leaving two adjacent
spaces; a second application collapses them. -/
theorem clean_not_idempotent :
    clean_text (some (clean_text (some "a @ b"))) ≠
      clean_text (some "a @ b") := by
  decide

/-- C2 (amended): `clean` reaches a fixed point after two applications:
`clean (clean (clean x)) = clean (clean x)` for every string `x`. -/
theorem clean_fixed_after_two (x : String) :
    clean_text (some (clean_text (some (clean_text (some x))))) =
      clean_text (some (clean_text (some x))) := by
  by_cases hy : clean_text (some x) = ""
  · rw [hy]
    rfl
  · have hx : x ≠ "" := fun h => hy (by rw [h]; rfl)
    have hyv : clean_text (some x) = String.mk (cleanList x.data) := by
      simp only [clean_text]
      rw [if_neg hx]
    have hne : String.mk (cleanList x.data) ≠ "" := hyv ▸ hy
    have hzv : clean_text (some (clean_text (some x))) =
        String.mk (cleanList (cleanList x.data)) := by
      rw [hyv]
      simp only [clean_text]
      rw [if_neg hne]
    by_cases hw : String.mk (cleanList (cleanList x.data)) = ""
    · rw [hzv, hw]
      rfl
    · rw [hzv]
      simp only [clean_text]
      rw [if_neg hw]
      exact congrArg String.mk
        (cleanList_fixed_of_keep (cleanList x.data)
          (fun c hc => (mem_cleanList x.data c hc).1))

/-- C3: the five passes run in the fixed source order (citations, braces,
whitespace collapse, character filter, trim), and in particular
`clean "Hello [12] world" = "Hello world"` and
`clean "A {template remnant} B" = "A B"`. -/
theorem clean_pass_order_and_examples :
    (∀ s : String, clean_text (some s) =
      if s = "" then ""
      else String.mk
        (stripPy (filterSpecial (collapseWs (subBraces (subCitations s.data))))))
    ∧ clean_text (some "Hello [12] world") = "Hello world"
    ∧ clean_text (some "A \x7btemplate remnant\x7d B") = "A B" :=
  ⟨fun _ => rfl, by decide, by decide⟩

/-- C4: the builder produces exactly one record per title whose fetch
returned a record, in input order, skipping absent titles with no
placeholder, and each record's `clean_text`/`clean_summary` are `clean` of
the fetched raw text and summary. -/
theorem build_records (env : String → Except String WikiPage) (now : String)
    (titles : List String) (path : String) :
    (process_articles env now titles path).1 =
        titles.filterMap (fun t => (fetch_article env now t).map enrich)
    ∧ (process_articles env now titles path).1.length =
        titles.countP (fun t => (fetch_article env now t).isSome)
    ∧ ∀ a : ArticleData,
        (enrich a).clean_text = clean_text (some a.text)
        ∧ (enrich a).clean_summary = clean_text (some a.summary) := by
  refine ⟨?_, ?_, fun a => ⟨rfl, rfl⟩⟩
  · rw [process_articles_fst, processLoop_eq_filterMap]
  · rw [process_articles_fst, processLoop_length]

/-- C5: with an empty table (in particular with an empty title list) the
builder returns the empty table and performs no filesystem action: no
directory creation, no `.csv`, no `.json`. -/
theorem build_no_write_on_empty (env : String → Except String WikiPage)
    (now : String) (path : String) :
    process_articles env now [] path = ([], [])
    ∧ ∀ titles, (process_articles env now titles path).1 = [] →
        (process_articles env now titles path).2 = [] := by
  refine ⟨rfl, fun titles h => ?_⟩
  rw [process_articles_fst] at h
  simp [process_articles, h]

/-- C5 witness: a fetcher that always faults yields an empty table and no
filesystem actions. -/
theorem build_no_write_on_empty_witness :
    (process_articles envErr "2024-01-01" ["Alpha"]
      "output/processed_articles").2 = [] :=
  (build_no_write_on_empty envErr "2024-01-01" "output/processed_articles").2
    ["Alpha"] (by decide)

/-- C6: for a non-empty table the statistics are the truncated means of the
clean text/summary lengths, the sum of reference counts, and the number of
distinct categories; on the two synthetic records they are 15, 8 and 3. -/
theorem stats_nonempty (df : List ProcessedArticle) (h : df ≠ []) :
    (get_article_statistics df).avg_text_length =
        (df.map (fun r => r.clean_text.length)).sum / df.length
    ∧ (get_article_statistics df).avg_summary_length =
        (df.map (fun r => r.clean_summary.length)).sum / df.length
    ∧ (get_article_statistics df).total_references =
        (df.map (fun r => r.references)).sum
    ∧ (get_article_statistics df).unique_categories =
        (df.flatMap (fun r => r.categories)).dedup.length
    ∧ (get_article_statistics df).total_articles = df.length
    ∧ (get_article_statistics [sampleRec1, sampleRec2]).avg_text_length = 15
    ∧ (get_article_statistics [sampleRec1, sampleRec2]).total_references = 8
    ∧ (get_article_statistics [sampleRec1, sampleRec2]).unique_categories = 3 := by
  rw [get_article_statistics, if_neg h]
  exact ⟨rfl, rfl, rfl, rfl, rfl, by decide, by decide, by decide⟩

/-- C6 witness: the aggregate-correctness instance of the claim. -/
theorem stats_nonempty_witness :
    (get_article_statistics [sampleRec1, sampleRec2]).avg_text_length = 15
    ∧ (get_article_statistics [sampleRec1, sampleRec2]).total_references = 8
    ∧ (get_article_statistics [sampleRec1, sampleRec2]).unique_categories = 3 := by
  have h := stats_nonempty [sampleRec1, sampleRec2] (by decide)
  exact ⟨h.2.2.2.2.2.1, h.2.2.2.2.2.2.1, h.2.2.2.2.2.2.2⟩

/-- C7: the statistics of the empty table are all zero with a
`[None, None]` date range. -/
theorem stats_empty_table :
    get_article_statistics [] = ⟨0, 0, 0, 0, 0, (none, none)⟩ :=
  rfl

/-- C8: `fetch_article` never propagates a fault: a raising client lookup
and a nonexistent page both produce the absent signal `none`. -/
theorem fetch_absorbs_faults (env : String → Except String WikiPage)
    (now : String) (title : String) :
    (∀ e, env title = Except.error e → fetch_article env now title = none)
    ∧ ∀ p, env title = Except.ok p → p.pageExists = false →
        fetch_article env now title = none := by
  constructor
  · intro e he
    simp [fetch_article, he]
  · intro p hp hex
    simp [fetch_article, hp, hex]

/-- C8 witness: under `envDemo`, the raising title `"X"` and the
nonexistent page `"Y"` both fetch to `none`. -/
theorem fetch_absorbs_faults_witness :
    fetch_article envDemo "2024-01-01" "X" = none
    ∧ fetch_article envDemo "2024-01-01" "Y" = none :=
  ⟨(fetch_absorbs_faults envDemo "2024-01-01" "X").1 "ReadTimeout" rfl,
    (fetch_absorbs_faults envDemo "2024-01-01" "Y").2
      ⟨"Y", "", "", "", [], 0, false⟩ rfl rfl⟩

/-- C9: empty or absent input maps to the empty string. -/
theorem clean_empty_absent :
    clean_text (some "") = "" ∧ clean_text none = "" :=
  ⟨rfl, rfl⟩

/-- C10: every character of `clean s` is a word character, an ASCII space,
or one of `. , ! ? -`, and the output has no leading or trailing
whitespace. -/
theorem clean_output_charset (s : String) :
    (∀ c ∈ (clean_text (some s)).data,
        isWordPy c = true ∨ c = ' ' ∨ isPunctKeep c = true)
    ∧ startsNonspace (clean_text (some s)).data = true
    ∧ endsNonspace (clean_text (some s)).data = true := by
  by_cases hs : s = ""
  · subst hs
    exact ⟨fun c hc => absurd hc (List.not_mem_nil c), rfl, rfl⟩
  · have hv : clean_text (some s) = String.mk (cleanList s.data) := by
      simp only [clean_text]
      rw [if_neg hs]
    rw [hv]
    refine ⟨?_, startsNonspace_stripPy _, endsNonspace_stripPy _⟩
    intro c hc
    have h := mem_cleanList s.data c hc
    have h1 := h.1
    rw [keepChar, Bool.or_eq_true, Bool.or_eq_true] at h1
    rcases h1 with (hw | hsp) | hp
    · exact Or.inl hw
    · exact Or.inr (Or.inl (h.2 hsp))
    · exact Or.inr (Or.inr hp)

/-- C10 witness: the charset property at a concrete messy input. -/
theorem clean_output_charset_witness :
    (∀ c ∈ (clean_text (some "ab [1] \x7bx\x7d\t c!?")).data,
        isWordPy c = true ∨ c = ' ' ∨ isPunctKeep c = true)
    ∧ startsNonspace (clean_text (some "ab [1] \x7bx\x7d\t c!?")).data = true
    ∧ endsNonspace (clean_text (some "ab [1] \x7bx\x7d\t c!?")).data = true :=
  clean_output_charset "ab [1] \x7bx\x7d\t c!?"
